import Mathlib

/-!
Verification of the slice-cache and comparison-metrics subsystem of the
NeuroAI dashboard (`app.py`).

Modelling conventions:
* A voxel grid is an explicit finite list `sh : List Point` of voxel
  coordinates; a label volume is a value function `Point → ℤ` over that grid.
  `np.sum` of a boolean mask is the length of the filtered grid.
* Python floats are modelled by `ℚ` (all claims compare exact values `0.0`,
  `1.0`, or ratios of small integer counts, where IEEE doubles agree with the
  rational results).
-/

/-- A voxel coordinate, as produced by `np.argwhere` on a 3-D array. -/
abbrev Point : Type := ℤ × ℤ × ℤ

/-- Boolean mask `(v == label)` over the voxel grid. -/
def eqMask (v : Point → ℤ) (label : ℤ) : Point → Bool :=
  fun p => decide (v p = label)

/-- Elementwise `&` of two boolean masks. -/
def maskAnd (a b : Point → Bool) : Point → Bool :=
  fun p => a p && b p

/-- Elementwise `|` of two boolean masks. -/
def maskOr (a b : Point → Bool) : Point → Bool :=
  fun p => a p || b p

/-- Elementwise `~` (logical not) of a boolean mask. -/
def maskNot (a : Point → Bool) : Point → Bool :=
  fun p => ! a p

/-- Model of `np.sum(mask)` for a boolean mask over the grid `sh`: the number
of grid points where the mask is true. -/
def npsum (sh : List Point) (m : Point → Bool) : ℕ :=
  (sh.filter m).length

/-- Embedding of `calculate_dice_score(pred, gt, label)` from `app.py`
(lines 30–41): masks `pred == label` and `gt == label`, intersection and
total counts, returning `1.0 if intersection == 0 else 0.0` when
`total == 0` and `2.0 * intersection / total` otherwise. -/
def calculate_dice_score (sh : List Point) (pred gt : Point → ℤ) (label : ℤ) : ℚ :=
  let pred_mask := eqMask pred label
  let gt_mask := eqMask gt label
  let intersection := npsum sh (maskAnd pred_mask gt_mask)
  let total := npsum sh pred_mask + npsum sh gt_mask
  if total = 0 then (if intersection = 0 then 1 else 0)
  else (2 * intersection) / total

/-- Embedding of `calculate_iou(pred, gt, label)` from `app.py`
(lines 43–54). -/
def calculate_iou (sh : List Point) (pred gt : Point → ℤ) (label : ℤ) : ℚ :=
  let pred_mask := eqMask pred label
  let gt_mask := eqMask gt label
  let intersection := npsum sh (maskAnd pred_mask gt_mask)
  let union := npsum sh (maskOr pred_mask gt_mask)
  if union = 0 then (if intersection = 0 then 1 else 0)
  else intersection / union

/-- Embedding of `calculate_precision_recall(pred, gt, label)` from `app.py`
(lines 56–68): `tp / (tp + fp)` and `tp / (tp + fn)`, each `0.0` when its
denominator is zero. -/
def calculate_precision_recall (sh : List Point) (pred gt : Point → ℤ) (label : ℤ) : ℚ × ℚ :=
  let pred_mask := eqMask pred label
  let gt_mask := eqMask gt label
  let tp := npsum sh (maskAnd pred_mask gt_mask)
  let fp := npsum sh (maskAnd pred_mask (maskNot gt_mask))
  let fn := npsum sh (maskAnd (maskNot pred_mask) gt_mask)
  let precision : ℚ := if 0 < tp + fp then tp / (tp + fp) else 0
  let recall' : ℚ := if 0 < tp + fn then tp / (tp + fn) else 0
  (precision, recall')

/-- Embedding of `calculate_sensitivity_specificity(pred, gt, label)` from
`app.py` (lines 70–83): `tp / (tp + fn)` and `tn / (tn + fp)`, each `0.0`
when its denominator is zero. -/
def calculate_sensitivity_specificity (sh : List Point) (pred gt : Point → ℤ) (label : ℤ) : ℚ × ℚ :=
  let pred_mask := eqMask pred label
  let gt_mask := eqMask gt label
  let tp := npsum sh (maskAnd pred_mask gt_mask)
  let tn := npsum sh (maskAnd (maskNot pred_mask) (maskNot gt_mask))
  let fp := npsum sh (maskAnd pred_mask (maskNot gt_mask))
  let fn := npsum sh (maskAnd (maskNot pred_mask) gt_mask)
  let sensitivity : ℚ := if 0 < tp + fn then tp / (tp + fn) else 0
  let specificity : ℚ := if 0 < tn + fp then tn / (tn + fp) else 0
  (sensitivity, specificity)

/-! Counting lemmas about boolean masks over a finite grid. -/

theorem npsum_nil (m : Point → Bool) : npsum [] m = 0 := rfl

theorem npsum_cons (x : Point) (sh : List Point) (m : Point → Bool) :
    npsum (x :: sh) m = (if m x then 1 else 0) + npsum sh m := by
  unfold npsum
  rw [List.filter_cons]
  by_cases h : m x
  · simp [h]
    omega
  · simp [h]

theorem npsum_and_le_left (sh : List Point) (a b : Point → Bool) :
    npsum sh (maskAnd a b) ≤ npsum sh a := by
  induction sh with
  | nil => simp [npsum_nil]
  | cons x t ih =>
    rw [npsum_cons, npsum_cons]
    cases h1 : a x <;> cases h2 : b x <;>
      simp [maskAnd, h1, h2] <;> omega

theorem npsum_and_le_right (sh : List Point) (a b : Point → Bool) :
    npsum sh (maskAnd a b) ≤ npsum sh b := by
  induction sh with
  | nil => simp [npsum_nil]
  | cons x t ih =>
    rw [npsum_cons, npsum_cons]
    cases h1 : a x <;> cases h2 : b x <;>
      simp [maskAnd, h1, h2] <;> omega

theorem npsum_le_or_left (sh : List Point) (a b : Point → Bool) :
    npsum sh a ≤ npsum sh (maskOr a b) := by
  induction sh with
  | nil => simp [npsum_nil]
  | cons x t ih =>
    rw [npsum_cons, npsum_cons]
    cases ha : a x <;> cases hb : b x <;>
      simp [maskOr, ha, hb] <;> omega

theorem npsum_or_add_and (sh : List Point) (a b : Point → Bool) :
    npsum sh (maskOr a b) + npsum sh (maskAnd a b) = npsum sh a + npsum sh b := by
  induction sh with
  | nil => simp [npsum_nil]
  | cons x t ih =>
    rw [npsum_cons, npsum_cons, npsum_cons, npsum_cons]
    cases ha : a x <;> cases hb : b x <;>
      simp [maskOr, maskAnd, ha, hb] <;> omega

theorem npsum_and_zero_left (sh : List Point) (a b : Point → Bool)
    (h : npsum sh a = 0) : npsum sh (maskAnd a b) = 0 :=
  Nat.le_zero.mp (h ▸ npsum_and_le_left sh a b)

/-! Mask algebra helpers. -/

theorem maskAnd_self (m : Point → Bool) : maskAnd m m = m :=
  funext fun p => Bool.and_self (m p)

theorem maskOr_self (m : Point → Bool) : maskOr m m = m :=
  funext fun p => Bool.or_self (m p)

theorem maskAnd_not_right (m : Point → Bool) :
    maskAnd m (maskNot m) = fun _ => false :=
  funext fun p => by cases h : m p <;> simp [maskAnd, maskNot, h]

theorem maskAnd_not_left (m : Point → Bool) :
    maskAnd (maskNot m) m = fun _ => false :=
  funext fun p => by cases h : m p <;> simp [maskAnd, maskNot, h]

theorem npsum_false (sh : List Point) : npsum sh (fun _ => false) = 0 := by
  induction sh with
  | nil => rfl
  | cons x t ih =>
    rw [npsum_cons, ih]
    simp

/-- C1: `calculate_dice_score` computes `2·|P∩G| / (|P|+|G|)` where `P`, `G`
are the voxel sets matching the label in `pred` and `gt`; when
`|P|+|G| = 0` (label absent from both volumes) it returns exactly `1.0`,
without dividing by zero (the division is confined to the nonzero branch).
The source's inner `1.0 if intersection == 0 else 0.0` collapses to `1.0`
because the intersection count is bounded by each mask count. -/
theorem spec_c1_dice_formula (sh : List Point) (pred gt : Point → ℤ) (label : ℤ) :
    calculate_dice_score sh pred gt label =
      if npsum sh (eqMask pred label) + npsum sh (eqMask gt label) = 0 then 1
      else (2 * (npsum sh (maskAnd (eqMask pred label) (eqMask gt label)) : ℚ)) /
        ((npsum sh (eqMask pred label) : ℚ) + (npsum sh (eqMask gt label) : ℚ)) := by
  unfold calculate_dice_score
  by_cases h : npsum sh (eqMask pred label) + npsum sh (eqMask gt label) = 0
  · have h1 : npsum sh (eqMask pred label) = 0 := by omega
    have h2 : npsum sh (maskAnd (eqMask pred label) (eqMask gt label)) = 0 :=
      npsum_and_zero_left _ _ _ h1
    simp [h, h2]
  · simp [h]

/-- C2: for a label absent from both volumes, the set-overlap metrics return
`1.0` while the confusion-matrix ratios return `0.0` in their guarded
branches: `dice = 1`, `iou = 1`, `precision_recall = (0, 0)`, and the
sensitivity component of `sensitivity_specificity` is `0`. -/
theorem spec_c2_absent_label_conventions (sh : List Point) (pred gt : Point → ℤ)
    (label : ℤ)
    (hp : npsum sh (eqMask pred label) = 0) (hg : npsum sh (eqMask gt label) = 0) :
    calculate_dice_score sh pred gt label = 1 ∧
    calculate_iou sh pred gt label = 1 ∧
    calculate_precision_recall sh pred gt label = (0, 0) ∧
    (calculate_sensitivity_specificity sh pred gt label).1 = 0 := by
  have hi : npsum sh (maskAnd (eqMask pred label) (eqMask gt label)) = 0 :=
    npsum_and_zero_left _ _ _ hp
  have hu : npsum sh (maskOr (eqMask pred label) (eqMask gt label)) = 0 := by
    have := npsum_or_add_and sh (eqMask pred label) (eqMask gt label)
    omega
  have hfp : npsum sh (maskAnd (eqMask pred label) (maskNot (eqMask gt label))) = 0 :=
    npsum_and_zero_left _ _ _ hp
  have hfn : npsum sh (maskAnd (maskNot (eqMask pred label)) (eqMask gt label)) = 0 := by
    have := npsum_and_le_right sh (maskNot (eqMask pred label)) (eqMask gt label)
    omega
  refine ⟨?_, ?_, ?_, ?_⟩ <;>
    simp [calculate_dice_score, calculate_iou, calculate_precision_recall,
      calculate_sensitivity_specificity, hp, hg, hi, hu, hfp, hfn]

/-- Witness for C2 at a concrete input: a one-voxel grid where both volumes
are `0` everywhere and the queried label is `1`. -/
theorem spec_c2_absent_label_conventions_witness :
    calculate_dice_score [((0, 0, 0) : Point)] (fun _ => 0) (fun _ => 0) 1 = 1 ∧
    calculate_iou [((0, 0, 0) : Point)] (fun _ => 0) (fun _ => 0) 1 = 1 ∧
    calculate_precision_recall [((0, 0, 0) : Point)] (fun _ => 0) (fun _ => 0) 1 = (0, 0) ∧
    (calculate_sensitivity_specificity [((0, 0, 0) : Point)] (fun _ => 0) (fun _ => 0) 1).1 = 0 :=
  spec_c2_absent_label_conventions [((0, 0, 0) : Point)] (fun _ => 0) (fun _ => 0) 1
    (by decide) (by decide)

/-- C4 counterexample: on the one-voxel grid with `pred = gt = 1` everywhere,
label `1` is present, the two volumes are identical, yet the specificity is
`0`, not `1` (the code returns `0.0` when `tn + fp = 0`, and `tn = 0` when the
label fills the whole volume). -/
theorem spec_c4_identity_counterexample :
    npsum [((0, 0, 0) : Point)] (eqMask (fun _ => 1) 1) ≠ 0 ∧
    (calculate_sensitivity_specificity [((0, 0, 0) : Point)]
      (fun _ => 1) (fun _ => 1) 1).2 = 0 := by
  constructor
  · decide
  · decide

/-- C4 (amended): for identical volumes `pred = gt = v` and every label
present in `v`, dice, IoU, precision and recall all equal `1.0`, with no
further condition — including a label that fills the whole volume. The
sensitivity-and-specificity pair equals `(1, 1)` provided some voxel of `v`
differs from the label; without that condition `tn + fp = 0` and specificity
is `0.0`, by the zero-denominator convention of
`calculate_sensitivity_specificity`. -/
theorem spec_c4_identity_metrics (sh : List Point) (v : Point → ℤ) (label : ℤ)
    (hpres : npsum sh (eqMask v label) ≠ 0) :
    calculate_dice_score sh v v label = 1 ∧
    calculate_iou sh v v label = 1 ∧
    calculate_precision_recall sh v v label = (1, 1) ∧
    (npsum sh (maskNot (eqMask v label)) ≠ 0 →
      calculate_sensitivity_specificity sh v v label = (1, 1)) := by
  have hA : maskAnd (eqMask v label) (eqMask v label) = eqMask v label :=
    maskAnd_self _
  have hO : maskOr (eqMask v label) (eqMask v label) = eqMask v label :=
    maskOr_self _
  have hN : maskAnd (maskNot (eqMask v label)) (maskNot (eqMask v label)) =
      maskNot (eqMask v label) := maskAnd_self _
  have hFP : npsum sh (maskAnd (eqMask v label) (maskNot (eqMask v label))) = 0 := by
    rw [maskAnd_not_right]
    exact npsum_false sh
  have hFN : npsum sh (maskAnd (maskNot (eqMask v label)) (eqMask v label)) = 0 := by
    rw [maskAnd_not_left]
    exact npsum_false sh
  have hcast : ((npsum sh (eqMask v label) : ℚ)) ≠ 0 := Nat.cast_ne_zero.mpr hpres
  refine ⟨?_, ?_, ?_, ?_⟩
  · simp only [calculate_dice_score, hA]
    rw [if_neg (by omega)]
    field_simp
    ring
  · simp only [calculate_iou, hA, hO]
    rw [if_neg hpres]
    field_simp
  · simp only [calculate_precision_recall, hA, hFP, hFN]
    have hpos : 0 < npsum sh (eqMask v label) + 0 := by omega
    have hc : ((npsum sh (eqMask v label) : ℚ)) + ((0 : ℕ) : ℚ) ≠ 0 := by
      push_cast
      exact_mod_cast hcast
    rw [if_pos hpos, Prod.mk.injEq]
    constructor <;> rw [div_eq_one_iff_eq hc] <;> push_cast <;> ring
  · intro hout
    have hcast2 : ((npsum sh (maskNot (eqMask v label)) : ℚ)) ≠ 0 :=
      Nat.cast_ne_zero.mpr hout
    simp only [calculate_sensitivity_specificity, hA, hN, hFP, hFN]
    have hpos : 0 < npsum sh (eqMask v label) + 0 := by omega
    have hpos2 : 0 < npsum sh (maskNot (eqMask v label)) + 0 := by omega
    have hc : ((npsum sh (eqMask v label) : ℚ)) + ((0 : ℕ) : ℚ) ≠ 0 := by
      push_cast
      exact_mod_cast hcast
    have hc2 : ((npsum sh (maskNot (eqMask v label)) : ℚ)) + ((0 : ℕ) : ℚ) ≠ 0 := by
      push_cast
      exact_mod_cast hcast2
    rw [if_pos hpos, if_pos hpos2, Prod.mk.injEq]
    refine ⟨?_, ?_⟩
    · rw [div_eq_one_iff_eq hc]
      push_cast
      ring
    · rw [div_eq_one_iff_eq hc2]
      push_cast
      ring

/-- Witness for the amended C4 at a concrete input: a two-voxel grid where
exactly one voxel carries label `1`. -/
theorem spec_c4_identity_metrics_witness :
    calculate_dice_score [((0, 0, 0) : Point), ((1, 0, 0) : Point)]
      (fun p => if p = ((0, 0, 0) : Point) then 1 else 0)
      (fun p => if p = ((0, 0, 0) : Point) then 1 else 0) 1 = 1 ∧
    calculate_iou [((0, 0, 0) : Point), ((1, 0, 0) : Point)]
      (fun p => if p = ((0, 0, 0) : Point) then 1 else 0)
      (fun p => if p = ((0, 0, 0) : Point) then 1 else 0) 1 = 1 ∧
    calculate_precision_recall [((0, 0, 0) : Point), ((1, 0, 0) : Point)]
      (fun p => if p = ((0, 0, 0) : Point) then 1 else 0)
      (fun p => if p = ((0, 0, 0) : Point) then 1 else 0) 1 = (1, 1) ∧
    calculate_sensitivity_specificity [((0, 0, 0) : Point), ((1, 0, 0) : Point)]
      (fun p => if p = ((0, 0, 0) : Point) then 1 else 0)
      (fun p => if p = ((0, 0, 0) : Point) then 1 else 0) 1 = (1, 1) :=
  ⟨(spec_c4_identity_metrics [((0, 0, 0) : Point), ((1, 0, 0) : Point)]
      (fun p => if p = ((0, 0, 0) : Point) then 1 else 0) 1 (by decide)).1,
    (spec_c4_identity_metrics [((0, 0, 0) : Point), ((1, 0, 0) : Point)]
      (fun p => if p = ((0, 0, 0) : Point) then 1 else 0) 1 (by decide)).2.1,
    (spec_c4_identity_metrics [((0, 0, 0) : Point), ((1, 0, 0) : Point)]
      (fun p => if p = ((0, 0, 0) : Point) then 1 else 0) 1 (by decide)).2.2.1,
    (spec_c4_identity_metrics [((0, 0, 0) : Point), ((1, 0, 0) : Point)]
      (fun p => if p = ((0, 0, 0) : Point) then 1 else 0) 1 (by decide)).2.2.2 (by decide)⟩

/-- C9: for every pair of same-grid label volumes and every label, the Dice
score is at least the IoU, and the two coincide exactly when both are `1.0`
(identical masks, or label absent from both) or both are `0.0` (disjoint
masks). -/
theorem spec_c9_dice_ge_iou (sh : List Point) (pred gt : Point → ℤ) (label : ℤ) :
    calculate_iou sh pred gt label ≤ calculate_dice_score sh pred gt label ∧
    (calculate_dice_score sh pred gt label = calculate_iou sh pred gt label ↔
      (calculate_dice_score sh pred gt label = 1 ∧ calculate_iou sh pred gt label = 1) ∨
      (calculate_dice_score sh pred gt label = 0 ∧ calculate_iou sh pred gt label = 0)) := by
  have hip : npsum sh (maskAnd (eqMask pred label) (eqMask gt label)) ≤
      npsum sh (eqMask pred label) := npsum_and_le_left sh _ _
  have hig : npsum sh (maskAnd (eqMask pred label) (eqMask gt label)) ≤
      npsum sh (eqMask gt label) := npsum_and_le_right sh _ _
  have hpu : npsum sh (eqMask pred label) ≤
      npsum sh (maskOr (eqMask pred label) (eqMask gt label)) := npsum_le_or_left sh _ _
  have hui : npsum sh (maskOr (eqMask pred label) (eqMask gt label)) +
      npsum sh (maskAnd (eqMask pred label) (eqMask gt label)) =
      npsum sh (eqMask pred label) + npsum sh (eqMask gt label) := npsum_or_add_and sh _ _
  by_cases h0 : npsum sh (eqMask pred label) + npsum sh (eqMask gt label) = 0
  · have hi0 : npsum sh (maskAnd (eqMask pred label) (eqMask gt label)) = 0 := by omega
    have hu0 : npsum sh (maskOr (eqMask pred label) (eqMask gt label)) = 0 := by omega
    have hd : calculate_dice_score sh pred gt label = 1 := by
      simp [calculate_dice_score, h0, hi0]
    have hio : calculate_iou sh pred gt label = 1 := by
      simp [calculate_iou, hu0, hi0]
    rw [hd, hio]
    norm_num
  · have hu0 : npsum sh (maskOr (eqMask pred label) (eqMask gt label)) ≠ 0 := by omega
    have hd : calculate_dice_score sh pred gt label =
        2 * (npsum sh (maskAnd (eqMask pred label) (eqMask gt label)) : ℚ) /
          ((npsum sh (eqMask pred label) : ℚ) + (npsum sh (eqMask gt label) : ℚ)) := by
      simp only [calculate_dice_score]
      rw [if_neg h0]
      push_cast
      ring
    have hio : calculate_iou sh pred gt label =
        (npsum sh (maskAnd (eqMask pred label) (eqMask gt label)) : ℚ) /
          (npsum sh (maskOr (eqMask pred label) (eqMask gt label)) : ℚ) := by
      simp only [calculate_iou]
      rw [if_neg hu0]
    have hPQ : (0 : ℚ) < (npsum sh (eqMask pred label) : ℚ) + (npsum sh (eqMask gt label) : ℚ) := by
      have : 0 < npsum sh (eqMask pred label) + npsum sh (eqMask gt label) := by omega
      exact_mod_cast this
    have hUQ : (0 : ℚ) < (npsum sh (maskOr (eqMask pred label) (eqMask gt label)) : ℚ) := by
      exact_mod_cast Nat.pos_of_ne_zero hu0
    have huiQ : (npsum sh (maskOr (eqMask pred label) (eqMask gt label)) : ℚ) +
        (npsum sh (maskAnd (eqMask pred label) (eqMask gt label)) : ℚ) =
        (npsum sh (eqMask pred label) : ℚ) + (npsum sh (eqMask gt label) : ℚ) := by
      exact_mod_cast hui
    have hiuQ : (npsum sh (maskAnd (eqMask pred label) (eqMask gt label)) : ℚ) ≤
        (npsum sh (maskOr (eqMask pred label) (eqMask gt label)) : ℚ) := by
      exact_mod_cast le_trans hip hpu
    have hi0Q : (0 : ℚ) ≤ (npsum sh (maskAnd (eqMask pred label) (eqMask gt label)) : ℚ) :=
      Nat.cast_nonneg _
    constructor
    · rw [hd, hio, div_le_div_iff₀ hUQ hPQ]
      nlinarith [mul_le_mul_of_nonneg_left hiuQ hi0Q]
    · constructor
      · intro h
        rw [hd, hio, div_eq_div_iff (ne_of_gt hPQ) (ne_of_gt hUQ)] at h
        have hfac : (npsum sh (maskAnd (eqMask pred label) (eqMask gt label)) : ℚ) *
            ((npsum sh (maskOr (eqMask pred label) (eqMask gt label)) : ℚ) -
              (npsum sh (maskAnd (eqMask pred label) (eqMask gt label)) : ℚ)) = 0 := by
          nlinarith [h, huiQ]
        rcases mul_eq_zero.mp hfac with hz | hz
        · right
          constructor
          · rw [hd, hz]
            simp
          · rw [hio, hz]
            simp
        · left
          have heq : (npsum sh (maskOr (eqMask pred label) (eqMask gt label)) : ℚ) =
              (npsum sh (maskAnd (eqMask pred label) (eqMask gt label)) : ℚ) := by
            linarith
          constructor
          · rw [hd, ← huiQ, heq]
            rw [div_eq_one_iff_eq (by linarith)]
            ring
          · rw [hio, ← heq]
            exact div_self (ne_of_gt hUQ)
      · rintro (⟨h1, h2⟩ | ⟨h1, h2⟩) <;> rw [h1, h2]

/-! Hausdorff distance (`calculate_hausdorff_distance`, `app.py` lines
85–101). Distances are real numbers; the Python `float('inf')` sentinel is
modelled as `⊤ : EReal`. -/

/-- Coordinates of the grid voxels where the mask is true, in grid order:
`np.argwhere(mask)`. -/
def argwhere (sh : List Point) (m : Point → Bool) : List Point :=
  sh.filter m

/-- Euclidean distance between two voxel coordinates. -/
noncomputable def pointDist (a b : Point) : ℝ :=
  Real.sqrt (((a.1 - b.1) ^ 2 + (a.2.1 - b.2.1) ^ 2 + (a.2.2 - b.2.2) ^ 2 : ℤ) : ℝ)

/-- Minimum of a list of reals (the empty case is never reached by the code,
which guards against empty point sets before calling scipy). -/
noncomputable def infList : List ℝ → ℝ
  | [] => 0
  | x :: xs => xs.foldl min x

/-- Maximum of a list of reals (same convention as `infList`). -/
noncomputable def supList : List ℝ → ℝ
  | [] => 0
  | x :: xs => xs.foldl max x

/-- Model of `scipy.spatial.distance.directed_hausdorff(A, B)[0]` (an external
library call): the directed Hausdorff distance `max over a in A` of
`min over b in B` of `‖a - b‖`. The library's shuffling and early-break
optimizations do not change the value. -/
noncomputable def directed_hausdorff (A B : List Point) : ℝ :=
  supList (A.map (fun a => infList (B.map (fun b => pointDist a b))))

/-- Embedding of `calculate_hausdorff_distance(pred, gt, label, percentile=95)`
from `app.py` (lines 85–101): if either mask has zero voxels, return
`float('inf')` (modelled `⊤`); otherwise the maximum of the two directed
Hausdorff distances between the `np.argwhere` point sets. The `percentile`
parameter is accepted but unused in the body. -/
noncomputable def calculate_hausdorff_distance (sh : List Point) (pred gt : Point → ℤ)
    (label : ℤ) (percentile : ℚ) : EReal :=
  let pred_mask := eqMask pred label
  let gt_mask := eqMask gt label
  if npsum sh pred_mask = 0 ∨ npsum sh gt_mask = 0 then ⊤
  else
    let pred_points := argwhere sh pred_mask
    let gt_points := argwhere sh gt_mask
    let forward := directed_hausdorff pred_points gt_points
    let backward := directed_hausdorff gt_points pred_points
    ((max forward backward : ℝ) : EReal)

/-- Specification-side restatement of C3, written from the spec's words with
no percentile parameter: `+∞` whenever either point set is empty, otherwise
the maximum of the two directed Hausdorff distances between the point sets of
voxel coordinates matching the label in each volume. -/
noncomputable def hausdorffSpec (sh : List Point) (pred gt : Point → ℤ) (label : ℤ) : EReal :=
  if argwhere sh (eqMask pred label) = [] ∨ argwhere sh (eqMask gt label) = [] then ⊤
  else
    max
      ((directed_hausdorff (argwhere sh (eqMask pred label)) (argwhere sh (eqMask gt label)) : ℝ) : EReal)
      ((directed_hausdorff (argwhere sh (eqMask gt label)) (argwhere sh (eqMask pred label)) : ℝ) : EReal)

/-- C3: for every pair of same-grid label volumes, every label and every value
of the `percentile` argument, `calculate_hausdorff_distance` returns exactly
the symmetric Hausdorff distance described by the spec-side definition:
the maximum of the two directed distances, `+∞` when either point set is
empty, with no dependence whatsoever on `percentile` (the right-hand side
does not mention it) and no 95th-percentile truncation. -/
theorem spec_c3_hausdorff_percentile_unused (sh : List Point) (pred gt : Point → ℤ)
    (label : ℤ) (percentile : ℚ) :
    calculate_hausdorff_distance sh pred gt label percentile =
      hausdorffSpec sh pred gt label := by
  unfold calculate_hausdorff_distance hausdorffSpec
  have he : ∀ m : Point → Bool, npsum sh m = 0 ↔ argwhere sh m = [] := by
    intro m
    unfold npsum argwhere
    exact List.length_eq_zero
  by_cases h : npsum sh (eqMask pred label) = 0 ∨ npsum sh (eqMask gt label) = 0
  · rw [if_pos h, if_pos ?_]
    rcases h with h | h
    · exact Or.inl ((he _).mp h)
    · exact Or.inr ((he _).mp h)
  · rw [if_neg h, if_neg ?_]
    · dsimp only
      rcases le_total
        (directed_hausdorff (argwhere sh (eqMask pred label)) (argwhere sh (eqMask gt label)))
        (directed_hausdorff (argwhere sh (eqMask gt label)) (argwhere sh (eqMask pred label)))
        with hle | hle
      · rw [max_eq_right hle, max_eq_right (EReal.coe_le_coe_iff.mpr hle)]
      · rw [max_eq_left hle, max_eq_left (EReal.coe_le_coe_iff.mpr hle)]
    · intro hc
      rcases hc with hc | hc
      · exact h (Or.inl ((he _).mpr hc))
      · exact h (Or.inr ((he _).mpr hc))

/-! The slice-cache subsystem: `DATA_CACHE` and `get_slice_fig`
(`app.py` lines 1637–1718).

Modelling conventions:
* A 3-D numpy array is a size triple plus a total value function.
* The filesystem is a partial map from file path to the array stored there;
  `os.path.exists` of an `.npy` path is `Option.isSome`, and `np.load` of a
  missing path raises (surfaces as the error branch).
* The process-wide dict `DATA_CACHE` is a map `String → Option Entry` threaded
  through the call: `get_slice_fig` returns the figure together with the cache
  state after the call.
* The four distinct figure outcomes of the Python code are the four
  constructors of `Fig`: the styled placeholder returned when `path` is falsy,
  the bare `go.Figure()` returned when `img.npy` is missing, the
  exception-handler figure, and a successfully rendered slice. -/

/-- A 3-D numpy array of rationals: shape `(n0, n1, n2)` and values. -/
structure NpArray3 where
  n0 : ℕ
  n1 : ℕ
  n2 : ℕ
  val : ℕ → ℕ → ℕ → ℚ

/-- A 2-D slice of an array. -/
structure Slice2 where
  rows : ℕ
  cols : ℕ
  val : ℕ → ℕ → ℚ

/-- The RGBA pixel matrix handed to `go.Image` (after `astype(np.uint8)`). -/
structure RGBASlice where
  rows : ℕ
  cols : ℕ
  val : ℕ → ℕ → ℤ × ℤ × ℤ × ℤ

/-- The possible figures returned by `get_slice_fig`. -/
inductive Fig where
  /-- The styled placeholder returned when `path` is falsy (transparent
  background, invisible axes). -/
  | placeholderNoPath : Fig
  /-- The bare `go.Figure()` returned when `img.npy` does not exist. -/
  | emptyFig : Fig
  /-- The figure produced by the `except` handler after any exception during
  load, slice or render. -/
  | errorFig : Fig
  /-- A successfully rendered slice. -/
  | rendered : RGBASlice → Fig

/-- The process-wide `DATA_CACHE` dict, mapping a session id to the loaded
`(img, mask)` pair. -/
abbrev Cache : Type := String → Option (NpArray3 × NpArray3)

/-- Numpy basic-indexing semantics along one axis of length `n`: indices in
`[0, n)` are used as-is, indices in `[-n, 0)` wrap around to `n + idx`, and
anything else raises `IndexError` (`none`). -/
def npIndex (n : ℕ) (idx : ℤ) : Option ℕ :=
  if 0 ≤ idx ∧ idx < (n : ℤ) then some idx.toNat
  else if -(n : ℤ) ≤ idx ∧ idx < 0 then some (idx + n).toNat
  else none

/-- The array's extent along the axis selected by `dim`; the code treats every
`dim` other than `0` and `1` as axial (`dim 2`), mirroring its `else` branch. -/
def extent (a : NpArray3) (dim : ℤ) : ℕ :=
  if dim = 0 then a.n0 else if dim = 1 then a.n1 else a.n2

/-- One 2-D slice of a 3-D array: `a[idx,:,:]`, `a[:,idx,:]` or `a[:,:,idx]`
according to `dim`, `none` when the index is out of range (`IndexError`). -/
def sliceVol (a : NpArray3) (dim idx : ℤ) : Option Slice2 :=
  match npIndex (extent a dim) idx with
  | none => none
  | some i =>
    if dim = 0 then some ⟨a.n1, a.n2, fun r c => a.val i r c⟩
    else if dim = 1 then some ⟨a.n0, a.n2, fun r c => a.val r i c⟩
    else some ⟨a.n0, a.n1, fun r c => a.val r c i⟩

/-- `np.rot90`: one quarter-turn counter-clockwise;
`out[i][j] = in[j][cols - 1 - i]`. -/
def rot90 (s : Slice2) : Slice2 :=
  ⟨s.cols, s.rows, fun i j => s.val j (s.cols - 1 - i)⟩

/-- All entries of a 2-D slice, row-major. -/
def sliceVals (s : Slice2) : List ℚ :=
  ((List.range s.rows).map (fun r => (List.range s.cols).map (fun c => s.val r c))).flatten

/-- Maximum of a list of rationals, `none` on the empty list. -/
def listMaxQ : List ℚ → Option ℚ
  | [] => none
  | x :: xs =>
    some (match listMaxQ xs with
      | none => x
      | some m => max x m)

/-- `np.max` over a 2-D slice; `none` models the `ValueError` numpy raises on
an empty array. -/
def sliceMax (s : Slice2) : Option ℚ :=
  listMaxQ (sliceVals s)

/-- The normalization step of `get_slice_fig` (`app.py` lines 1687–1689):
`img_norm = img_slice / (max_val + 1e-6)` where `max_val = np.max(img_slice)`
is passed in by the caller. -/
def normalizeSlice (s : Slice2) (max_val : ℚ) : Slice2 :=
  ⟨s.rows, s.cols, fun r c => s.val r c / (max_val + 1 / 1000000)⟩

/-- Conversion of a float pixel to `np.uint8`, modelled as floor followed by
wrap-around modulo 256 (exact for the in-range values the code produces). -/
def npUint8 (q : ℚ) : ℤ :=
  (Rat.floor q) % 256

/-- The 60%-color / 40%-pixel blend of the overlay loop. -/
def blendPx (base color : ℚ) : ℚ :=
  base * (2 / 5) + color * (3 / 5)

/-- The colorize step: base grayscale `img_norm * 255` on R, G and B plus an
opaque alpha channel, then the label overlay (label 1 red `[239, 68, 68]`,
label 2 blue `[59, 130, 246]`, label 3 yellow `[251, 191, 36]`) blended at
60% color + 40% original pixel, and the final `astype(np.uint8)`. -/
def colorize (img_norm mask_slice : Slice2) : RGBASlice :=
  ⟨img_norm.rows, img_norm.cols, fun r c =>
    let base := img_norm.val r c * 255
    let m := mask_slice.val r c
    let px : ℚ × ℚ × ℚ :=
      if m = 1 then (blendPx base 239, blendPx base 68, blendPx base 68)
      else if m = 2 then (blendPx base 59, blendPx base 130, blendPx base 246)
      else if m = 3 then (blendPx base 251, blendPx base 191, blendPx base 36)
      else (base, base, base)
    (npUint8 px.1, npUint8 px.2.1, npUint8 px.2.2, npUint8 255)⟩

/-- Steps 4–7 of `get_slice_fig` (slice, rotate, normalize, colorize); any
failing step (index out of range for either array, or `np.max` on an empty
slice) lands in the `except` handler's figure. -/
def renderStep (img mask : NpArray3) (dim idx : ℤ) : Fig :=
  match sliceVol img dim idx with
  | none => Fig.errorFig
  | some img_slice =>
    match sliceVol mask dim idx with
    | none => Fig.errorFig
    | some mask_slice =>
      let img_rot := rot90 img_slice
      let mask_rot := rot90 mask_slice
      match sliceMax img_rot with
      | none => Fig.errorFig
      | some max_val => Fig.rendered (colorize (normalizeSlice img_rot max_val) mask_rot)

/-- `os.path.basename`: the component after the last `/`. -/
def basename (s : String) : String :=
  String.mk ((s.toList.reverse.takeWhile (fun ch => ch ≠ '/')).reverse)

/-- `os.path.join` for the two-argument uses in `get_slice_fig`. -/
def joinPath (a b : String) : String :=
  a ++ "/" ++ b

/-- Embedding of `get_slice_fig(path, dim, idx)` from `app.py` (lines
1639–1718), with the filesystem and the `DATA_CACHE` state passed explicitly.
Returns the figure and the cache state after the call. -/
def get_slice_fig (fs : String → Option NpArray3) (cache : Cache)
    (path : Option String) (dim idx : ℤ) : Fig × Cache :=
  match path with
  | none => (Fig.placeholderNoPath, cache)
  | some p =>
    if p = "" then (Fig.placeholderNoPath, cache)
    else
      let session_id := basename p
      match cache session_id with
      | some entry => (renderStep entry.1 entry.2 dim idx, cache)
      | none =>
        match fs (joinPath p "img.npy") with
        | none => (Fig.emptyFig, cache)
        | some img =>
          match fs (joinPath p "mask.npy") with
          | none => (Fig.errorFig, cache)
          | some mask =>
            (renderStep img mask dim idx,
              fun k => if k = session_id then some (img, mask) else cache k)

/-! Lemmas about indexing, list maxima and slice values. -/

theorem npIndex_valid (n : ℕ) (idx : ℤ) (h0 : 0 ≤ idx) (h1 : idx < (n : ℤ)) :
    npIndex n idx = some idx.toNat := by
  unfold npIndex
  rw [if_pos ⟨h0, h1⟩]

theorem npIndex_neg_wrap (n : ℕ) (idx : ℤ) (h0 : -(n : ℤ) ≤ idx) (h1 : idx < 0) :
    npIndex n idx = some (idx + n).toNat := by
  unfold npIndex
  rw [if_neg (by omega), if_pos ⟨h0, h1⟩]

theorem npIndex_oob (n : ℕ) (idx : ℤ) (h : (n : ℤ) ≤ idx) :
    npIndex n idx = none := by
  unfold npIndex
  rw [if_neg (by omega), if_neg (by omega)]

theorem listMaxQ_eq_none (l : List ℚ) : listMaxQ l = none ↔ l = [] := by
  cases l <;> simp [listMaxQ]

theorem listMaxQ_mem (l : List ℚ) (m : ℚ) (h : listMaxQ l = some m) : m ∈ l := by
  induction l generalizing m with
  | nil => simp [listMaxQ] at h
  | cons x xs ih =>
    unfold listMaxQ at h
    cases hxs : listMaxQ xs with
    | none =>
      rw [hxs] at h
      simp at h
      simp [h]
    | some mx =>
      rw [hxs] at h
      simp at h
      rcases max_choice x mx with hc | hc
    

      · rw [← h, hc]
        simp
      · rw [← h, hc]
        exact List.mem_cons_of_mem _ (ih mx hxs)

theorem listMaxQ_le (l : List ℚ) (x m : ℚ) (hx : x ∈ l) (h : listMaxQ l = some m) :
    x ≤ m := by
  induction l generalizing m with
  | nil => simp at hx
  | cons y ys ih =>
    unfold listMaxQ at h
    cases hys : listMaxQ ys with
    | none =>
      rw [hys] at h
      simp at h
      have hnil : ys = [] := (listMaxQ_eq_none ys).mp hys
      subst hnil
      simp at hx
      rw [hx, h]
    | some my =>
      rw [hys] at h
      simp at h
      rcases List.mem_cons.mp hx with hxy | hxys
      · rw [hxy, ← h]
        exact le_max_left _ _
      · exact le_trans (ih my hxys hys) (h ▸ le_max_right _ _)

theorem sliceVals_mem (s : Slice2) (r c : ℕ) (hr : r < s.rows) (hc : c < s.cols) :
    s.val r c ∈ sliceVals s := by
  unfold sliceVals
  rw [List.mem_flatten]
  exact ⟨(List.range s.cols).map (fun c => s.val r c),
    List.mem_map_of_mem _ (List.mem_range.mpr hr),
    List.mem_map_of_mem _ (List.mem_range.mpr hc)⟩

theorem sliceVals_mem_inv (s : Slice2) (q : ℚ) (h : q ∈ sliceVals s) :
    ∃ r c, r < s.rows ∧ c < s.cols ∧ q = s.val r c := by
  unfold sliceVals at h
  rw [List.mem_flatten] at h
  obtain ⟨row, hrow, hq⟩ := h
  obtain ⟨r, hr, rfl⟩ := List.mem_map.mp hrow
  obtain ⟨c, hc, rfl⟩ := List.mem_map.mp hq
  exact ⟨r, c, List.mem_range.mp hr, List.mem_range.mp hc, rfl⟩

theorem sliceMax_isSome (s : Slice2) (hr : 0 < s.rows) (hc : 0 < s.cols) :
    ∃ m, sliceMax s = some m := by
  unfold sliceMax
  cases h : listMaxQ (sliceVals s) with
  | some m => exact ⟨m, rfl⟩
  | none =>
    exfalso
    have hnil := (listMaxQ_eq_none _).mp h
    have hmem := sliceVals_mem s 0 0 hr hc
    rw [hnil] at hmem
    exact absurd hmem (List.not_mem_nil _)

theorem sliceVol_neg_wrap (a : NpArray3) (dim idx : ℤ)
    (h0 : -(extent a dim : ℤ) ≤ idx) (h1 : idx < 0) :
    sliceVol a dim idx = sliceVol a dim ((extent a dim : ℤ) + idx) := by
  unfold sliceVol
  rw [npIndex_neg_wrap _ _ h0 h1, npIndex_valid _ _ (by omega) (by omega),
    Int.add_comm idx (extent a dim : ℤ)]

theorem sliceVol_oob (a : NpArray3) (dim idx : ℤ) (h : (extent a dim : ℤ) ≤ idx) :
    sliceVol a dim idx = none := by
  unfold sliceVol
  rw [npIndex_oob _ _ h]

theorem sliceVol_dims_pos (a : NpArray3) (dim idx : ℤ) (s : Slice2)
    (h : sliceVol a dim idx = some s)
    (hp0 : 0 < a.n0) (hp1 : 0 < a.n1) (hp2 : 0 < a.n2) :
    0 < s.rows ∧ 0 < s.cols := by
  unfold sliceVol at h
  cases hni : npIndex (extent a dim) idx with
  | none =>
    rw [hni] at h
    simp at h
  | some i =>
    rw [hni] at h
    split_ifs at h <;>
      (simp only [Option.some.injEq] at h; rw [← h]; exact ⟨by assumption, by assumption⟩)

theorem renderStep_rendered (img mask : NpArray3) (dim idx : ℤ) (s t : Slice2)
    (hs : sliceVol img dim idx = some s) (ht : sliceVol mask dim idx = some t)
    (hr : 0 < s.rows) (hc : 0 < s.cols) :
    ∃ d, renderStep img mask dim idx = Fig.rendered d := by
  unfold renderStep
  rw [hs, ht]
  obtain ⟨m, hm⟩ := sliceMax_isSome (rot90 s) (by simpa [rot90] using hc) (by simpa [rot90] using hr)
  dsimp only
  rw [hm]
  exact ⟨_, rfl⟩

theorem get_slice_fig_hit (fs : String → Option NpArray3) (cache : Cache) (p : String)
    (dim idx : ℤ) (entry : NpArray3 × NpArray3)
    (hp : p ≠ "") (hhit : cache (basename p) = some entry) :
    get_slice_fig fs cache (some p) dim idx = (renderStep entry.1 entry.2 dim idx, cache) := by
  simp only [get_slice_fig]
  rw [if_neg hp, hhit]

/-- C6: with an absent (`None`) or empty session path, `get_slice_fig`
returns the well-formed no-path placeholder figure without raising and
leaves the cache mapping completely unchanged. -/
theorem spec_c6_missing_session_placeholder (fs : String → Option NpArray3)
    (cache : Cache) (dim idx : ℤ) :
    get_slice_fig fs cache none dim idx = (Fig.placeholderNoPath, cache) ∧
    get_slice_fig fs cache (some "") dim idx = (Fig.placeholderNoPath, cache) :=
  ⟨rfl, rfl⟩

/-- C5: for a cached session and any axis, an out-of-range slice index
(index at least the volume's extent along that axis) makes the underlying
array access fail; the call yields the exception-handler figure — distinct
from every rendered slice, so the index is not clamped and the call does not
silently succeed — and the cache is unchanged. -/
theorem spec_c5_out_of_range_error (fs : String → Option NpArray3) (cache : Cache)
    (p : String) (dim idx : ℤ) (entry : NpArray3 × NpArray3)
    (hp : p ≠ "") (hhit : cache (basename p) = some entry)
    (hidx : (extent entry.1 dim : ℤ) ≤ idx) :
    get_slice_fig fs cache (some p) dim idx = (Fig.errorFig, cache) ∧
    ∀ d : RGBASlice, Fig.errorFig ≠ Fig.rendered d := by
  constructor
  · rw [get_slice_fig_hit fs cache p dim idx entry hp hhit]
    unfold renderStep
    rw [sliceVol_oob entry.1 dim idx hidx]
  · intro d h
    exact Fig.noConfusion h

/-- Witness for C5: a cached one-voxel session queried at index 5 along
axis 0 returns the error figure. -/
theorem spec_c5_out_of_range_error_witness :
    get_slice_fig (fun _ => none)
      (fun _ => some (⟨1, 1, 1, fun _ _ _ => 0⟩, ⟨1, 1, 1, fun _ _ _ => 0⟩))
      (some "s") 0 5 =
      (Fig.errorFig,
        fun _ => some (⟨1, 1, 1, fun _ _ _ => 0⟩, ⟨1, 1, 1, fun _ _ _ => 0⟩)) ∧
    ∀ d : RGBASlice, Fig.errorFig ≠ Fig.rendered d :=
  spec_c5_out_of_range_error (fun _ => none)
    (fun _ => some (⟨1, 1, 1, fun _ _ _ => 0⟩, ⟨1, 1, 1, fun _ _ _ => 0⟩))
    "s" 0 5 (⟨1, 1, 1, fun _ _ _ => 0⟩, ⟨1, 1, 1, fun _ _ _ => 0⟩)
    (by decide) rfl (by decide)

/-- C7: on a cache miss, if the intensity-volume file `img.npy` is absent the
call returns the bare empty figure and the cache mapping after the call is
exactly the mapping before it (no entry inserted); if both arrays are present
they are loaded and the pair is inserted under the session identifier
(the base name of the session path). -/
theorem spec_c7_cache_miss (fs : String → Option NpArray3) (cache : Cache)
    (p : String) (dim idx : ℤ)
    (hp : p ≠ "") (hmiss : cache (basename p) = none) :
    (fs (joinPath p "img.npy") = none →
      get_slice_fig fs cache (some p) dim idx = (Fig.emptyFig, cache)) ∧
    (∀ img mask, fs (joinPath p "img.npy") = some img →
      fs (joinPath p "mask.npy") = some mask →
      get_slice_fig fs cache (some p) dim idx =
        (renderStep img mask dim idx,
          fun k => if k = basename p then some (img, mask) else cache k) ∧
      (get_slice_fig fs cache (some p) dim idx).2 (basename p) = some (img, mask)) := by
  constructor
  · intro himg
    simp only [get_slice_fig]
    rw [if_neg hp, hmiss, himg]
  · intro img mask himg hmask
    have hmain : get_slice_fig fs cache (some p) dim idx =
        (renderStep img mask dim idx,
          fun k => if k = basename p then some (img, mask) else cache k) := by
      simp only [get_slice_fig]
      rw [if_neg hp, hmiss, himg, hmask]
    refine ⟨hmain, ?_⟩
    rw [hmain]
    simp

/-- Witness for C7 (missing `img.npy` branch): an uncached session whose
storage has no files returns the bare empty figure with the cache untouched. -/
theorem spec_c7_cache_miss_witness :
    get_slice_fig (fun _ => none) (fun _ => none) (some "s") 2 0 =
      (Fig.emptyFig, fun _ => none) :=
  (spec_c7_cache_miss (fun _ => none) (fun _ => none) "s" 2 0 (by decide) rfl).1 rfl

/-- C10: for a cached session, axis `dim ∈ {0, 1, 2}` and a negative index
`-n ≤ idx < 0` (with `n` the volume's extent along that axis), the call
renders the slice at position `n + idx` — the same figure as the call with
index `n + idx` — and the outcome is a rendered figure, not an error or
placeholder: numpy's negative-index wrap-around is silently accepted. -/
theorem spec_c10_negative_index_wraps (fs : String → Option NpArray3) (cache : Cache)
    (p : String) (dim idx : ℤ) (A M : NpArray3)
    (hp : p ≠ "") (hhit : cache (basename p) = some (A, M))
    (hsh0 : M.n0 = A.n0) (hsh1 : M.n1 = A.n1) (hsh2 : M.n2 = A.n2)
    (hdim : dim = 0 ∨ dim = 1 ∨ dim = 2)
    (hlo : -(extent A dim : ℤ) ≤ idx) (hhi : idx < 0)
    (hq0 : 0 < A.n0) (hq1 : 0 < A.n1) (hq2 : 0 < A.n2) :
    get_slice_fig fs cache (some p) dim idx =
      get_slice_fig fs cache (some p) dim ((extent A dim : ℤ) + idx) ∧
    ∃ d, (get_slice_fig fs cache (some p) dim idx).1 = Fig.rendered d := by
  have hextM : extent M dim = extent A dim := by
    unfold extent
    split_ifs <;> assumption
  have hwrapA : sliceVol A dim idx = sliceVol A dim ((extent A dim : ℤ) + idx) :=
    sliceVol_neg_wrap A dim idx hlo hhi
  have hwrapM : sliceVol M dim idx = sliceVol M dim ((extent A dim : ℤ) + idx) := by
    have := sliceVol_neg_wrap M dim idx (by rw [hextM]; exact hlo) hhi
    rw [this, hextM]
  have h1 := get_slice_fig_hit fs cache p dim idx (A, M) hp hhit
  have h2 := get_slice_fig_hit fs cache p dim ((extent A dim : ℤ) + idx) (A, M) hp hhit
  have hrs : renderStep A M dim idx = renderStep A M dim ((extent A dim : ℤ) + idx) := by
    unfold renderStep
    rw [hwrapA, hwrapM]
  constructor
  · rw [h1, h2, hrs]
  · have hiA : npIndex (extent A dim) idx = some (idx + (extent A dim : ℤ)).toNat :=
      npIndex_neg_wrap _ _ hlo hhi
    obtain ⟨s, hs⟩ : ∃ s, sliceVol A dim idx = some s := by
      unfold sliceVol
      rw [hiA]
      dsimp only
      split_ifs <;> exact ⟨_, rfl⟩
    obtain ⟨t, ht⟩ : ∃ t, sliceVol M dim idx = some t := by
      unfold sliceVol
      rw [hextM, hiA]
      dsimp only
      split_ifs <;> exact ⟨_, rfl⟩
    obtain ⟨hr, hc⟩ := sliceVol_dims_pos A dim idx s hs hq0 hq1 hq2
    obtain ⟨d, hd⟩ := renderStep_rendered A M dim idx s t hs ht hr hc
    rw [h1]
    exact ⟨d, hd⟩

/-- Witness for C10: a cached 1×1×1 session queried at index `-1` along
axis 0 renders the same figure as index `0` and yields a rendered figure. -/
theorem spec_c10_negative_index_wraps_witness :
    get_slice_fig (fun _ => none)
      (fun _ => some (⟨1, 1, 1, fun _ _ _ => 0⟩, ⟨1, 1, 1, fun _ _ _ => 0⟩))
      (some "s") 0 (-1) =
      get_slice_fig (fun _ => none)
        (fun _ => some (⟨1, 1, 1, fun _ _ _ => 0⟩, ⟨1, 1, 1, fun _ _ _ => 0⟩))
        (some "s") 0 ((extent ⟨1, 1, 1, fun _ _ _ => 0⟩ 0 : ℤ) + (-1)) ∧
    ∃ d, (get_slice_fig (fun _ => none)
      (fun _ => some (⟨1, 1, 1, fun _ _ _ => 0⟩, ⟨1, 1, 1, fun _ _ _ => 0⟩))
      (some "s") 0 (-1)).1 = Fig.rendered d :=
  spec_c10_negative_index_wraps (fun _ => none)
    (fun _ => some (⟨1, 1, 1, fun _ _ _ => 0⟩, ⟨1, 1, 1, fun _ _ _ => 0⟩))
    "s" 0 (-1) ⟨1, 1, 1, fun _ _ _ => 0⟩ ⟨1, 1, 1, fun _ _ _ => 0⟩
    (by decide) rfl rfl rfl rfl (Or.inl rfl)
    (by decide) (by decide) (by decide) (by decide) (by decide)

/-- C8 counterexample: the normalization step does not map every slice into
`[0, 1]`. On the 1×1 slice whose only value is `-1` (negative intensities are
produced by the zero-mean normalization of the preprocessing pipeline), the
actual slice maximum is `-1` and the normalized pixel
`(-1) / (-1 + 1e-6) = 1000000/999999` is strictly greater than `1`. -/
theorem spec_c8_unit_interval_counterexample :
    sliceMax ⟨1, 1, fun _ _ => -1⟩ = some (-1) ∧
    1 < (normalizeSlice ⟨1, 1, fun _ _ => -1⟩ (-1)).val 0 0 := by
  constructor
  · rfl
  · show (1 : ℚ) < (-1) / (-1 + 1 / 1000000)
    norm_num

/-- C8 (amended): whenever every entry of the slice is nonnegative, dividing
by the slice's own maximum plus `1e-6` keeps every pixel in `[0, 1]` (and in
particular a uniformly-zero slice maps to all zeros without dividing by
zero). For slices containing negative intensities the result can leave
`[0, 1]`. -/
theorem spec_c8_normalized_bounds (s : Slice2) (mx : ℚ) (hmax : sliceMax s = some mx)
    (hnn : ∀ r c, r < s.rows → c < s.cols → 0 ≤ s.val r c)
    (r c : ℕ) (hr : r < s.rows) (hc : c < s.cols) :
    0 ≤ (normalizeSlice s mx).val r c ∧ (normalizeSlice s mx).val r c ≤ 1 := by
  unfold sliceMax at hmax
  have hmem := listMaxQ_mem _ _ hmax
  obtain ⟨r0, c0, hr0, hc0, hq⟩ := sliceVals_mem_inv s mx hmem
  have hmx0 : 0 ≤ mx := hq ▸ hnn r0 c0 hr0 hc0
  have hub : s.val r c ≤ mx := listMaxQ_le _ _ _ (sliceVals_mem s r c hr hc) hmax
  have heps : (0 : ℚ) < 1 / 1000000 := by norm_num
  have hden : 0 < mx + 1 / 1000000 := by linarith
  unfold normalizeSlice
  dsimp only
  constructor
  · exact div_nonneg (hnn r c hr hc) (le_of_lt hden)
  · rw [div_le_one hden]
    linarith

/-- Witness for the amended C8 at a concrete input: the 1×1 slice with the
single nonnegative value `1/2`, whose maximum is `1/2`. -/
theorem spec_c8_normalized_bounds_witness :
    0 ≤ (normalizeSlice ⟨1, 1, fun _ _ => 1 / 2⟩ (1 / 2)).val 0 0 ∧
      (normalizeSlice ⟨1, 1, fun _ _ => 1 / 2⟩ (1 / 2)).val 0 0 ≤ 1 :=
  spec_c8_normalized_bounds ⟨1, 1, fun _ _ => 1 / 2⟩ (1 / 2) rfl
    (fun _ _ _ _ => by norm_num) 0 0 (by decide) (by decide)
